import Mathlib

/-! Verification of the CKOS Lock Session Engine specification against the
repository sources.

The utility layer (`utils.c` / `utils.h`: PIN validation, CRC-16, time-string
formatting and parsing, ring buffer) and the configuration constants
(`app_config.h`) are translated directly from the C sources.  The lock
session engine itself (configure, tick, end_break, remaining_seconds,
rolling-key validation, persistence framing) is not present as C code in the
repository — it exists as the lock design document and the spec — so those
operations are modelled from the spec, as marked in their doc comments.

C strings and byte buffers are modelled as lists of byte values (`List Nat`);
machine integers as `Nat` with explicit masking where the C code wraps. -/

namespace CKOS

/-- LockType_t from the lock design document, section 2.1.1. -/
inductive LockType where
  | noneLock
  | agent
  | custom
  | keyholderBasic
  | keyholderRemote
deriving DecidableEq

/-- LockOperationalState_t from the lock design document, section 2.1.7. -/
inductive OperationalState where
  | Unlocked
  | Configuring
  | AwaitingDoorClose
  | Locked
  | PendingUnlock
  | BreakActive
  | ErrorState
deriving DecidableEq

/-- KeyholderRemoteLockConfig_t (rolling-key indices and break duration),
from the lock design document, section 2.1.5. -/
structure KeyholderRemoteConfig where
  unlock_key_index : Nat
  cleaning_key_index : Nat
  config_key_index : Nat
  break_duration_minutes : Nat
deriving DecidableEq

/-- LockModeConfig_t, the tagged union of per-lock-type configurations
(sections 2.1.2 through 2.1.6 of the lock design document; the spec models it
as a tagged sum).  The PIN is a byte string. -/
inductive ModeConfig where
  | noCfg
  | agentCfg (agent_id : Nat)
  | customCfg (duration_seconds : Nat)
  | basicCfg (pin : List Nat)
  | remoteCfg (remote : KeyholderRemoteConfig)
deriving DecidableEq

/-- LockSession_t, the master lock state (lock design document section 2.1.7,
spec section 3).  The field last_tick_utc is modelled from the spec: the spec
says the engine tracks the last tick UTC implicitly (tick adds
now_utc - last_known_utc, with the baseline reset by initiate and end_break);
it is made an explicit field here. -/
structure LockSession where
  active_lock_type : LockType
  operational_state : OperationalState
  mode_config : ModeConfig
  lock_start_utc : Nat
  unlock_target_utc : Nat
  session_accumulated_seconds : Nat
  break_start_utc : Nat
  break_allowed_seconds : Nat
  last_tick_utc : Nat
deriving DecidableEq

/-- CONFIG_LOCK_MIN_DURATION_SECONDS from App/Config/app_config.h. -/
def CONFIG_LOCK_MIN_DURATION_SECONDS : Nat := 60

/-- CONFIG_LOCK_MAX_DURATION_SECONDS from App/Config/app_config.h:
100UL * 365 * 24 * 3600. -/
def CONFIG_LOCK_MAX_DURATION_SECONDS : Nat := 100 * 365 * 24 * 3600

/-! Utility functions translated from utils.c. -/

/-- Whether the byte is an ASCII digit; this is the test the PIN-validation
loop in utils.c performs (it rejects when the character is below the digit 0
or above the digit 9). -/
def is_ascii_digit (b : Nat) : Bool := !(b < 48 || 57 < b)

/-- utils_validate_pin from utils.c: the length must be between 4 and 8 and
every character must be an ASCII digit.  (The C null-pointer guard has no
counterpart here; the PIN is the byte string up to the terminator.) -/
def utils_validate_pin (pin : List Nat) : Bool :=
  if pin.length < 4 || 8 < pin.length then false
  else pin.all is_ascii_digit

/-- crc16_table from utils.c, exactly as the C compiler sees it: the static
array of 256 uint16_t values has only its first 16 entries initialized (the
source comments say the table is abbreviated and the full table would be
present in production), so the remaining 240 entries are zero. -/
def crc16_table : List Nat :=
  [0x0000, 0x1021, 0x2042, 0x3063, 0x4084, 0x50a5, 0x60c6, 0x70e7,
   0x8108, 0x9129, 0xa14a, 0xb16b, 0xc18c, 0xd1ad, 0xe1ce, 0xf1ef]
  ++ List.replicate 240 0

/-- One iteration of the loop body of utils_crc16. -/
def crc16_step (crc b : Nat) : Nat :=
  ((crc <<< 8) ^^^ crc16_table.getD (((crc >>> 8) ^^^ b) &&& 255) 0) &&& 65535

/-- utils_crc16 from utils.c (initial value 0xFFFF, table-driven update,
result masked to 16 bits at each step). -/
def utils_crc16 (data : List Nat) : Nat := data.foldl crc16_step 0xFFFF

/-- Two-digit zero-padded decimal rendering of n, as printf %02lu produces
for n at most 99 (bytes of the two decimal digits). -/
def two_digit_bytes (n : Nat) : List Nat := [48 + n / 10, 48 + n % 10]

/-- utils_seconds_to_time_string from utils.c.  Returns none when the buffer
is smaller than 9 bytes (the C function writes nothing); otherwise the bytes
written, using the 99:59:59 cap when hours exceed 99 and the
HH:MM:SS rendering otherwise (58 is the ASCII colon). -/
def utils_seconds_to_time_string (seconds buffer_size : Nat) : Option (List Nat) :=
  if buffer_size < 9 then Option.none
  else
    let hours := seconds / 3600
    let minutes := (seconds % 3600) / 60
    let secs := seconds % 60
    if 99 < hours then some [57, 57, 58, 53, 57, 58, 53, 57]
    else some (two_digit_bytes hours ++ 58 :: (two_digit_bytes minutes ++ 58 :: two_digit_bytes secs))

/-- Digit-consuming loop of a %lu conversion: consumes leading ASCII digits,
accumulating the value in decimal. -/
def scan_unsigned : Nat → List Nat → Nat × List Nat
  | acc, [] => (acc, [])
  | acc, b :: rest =>
    if is_ascii_digit b then scan_unsigned (acc * 10 + (b - 48)) rest else (acc, b :: rest)

/-- A %lu conversion as sscanf applies it to the digit-and-colon strings the
formatter produces: it fails when the first byte is not a digit, and otherwise
consumes the maximal digit prefix.  (Leading whitespace and sign handling of
scanf never arise on these inputs and are not modelled.) -/
def parse_unsigned : List Nat → Option (Nat × List Nat)
  | [] => Option.none
  | b :: rest => if is_ascii_digit b then some (scan_unsigned (b - 48) rest) else Option.none

/-- utils_time_string_to_seconds from utils.c: sscanf with three %lu
conversions separated by literal colons; the number of successful conversions
selects which terms contribute, exactly as the C expression does. -/
def utils_time_string_to_seconds (s : List Nat) : Nat :=
  match parse_unsigned s with
  | Option.none => 0
  | some (hours, r1) =>
    match r1 with
    | 58 :: r2 =>
      match parse_unsigned r2 with
      | Option.none => hours * 3600
      | some (minutes, r3) =>
        match r3 with
        | 58 :: r4 =>
          match parse_unsigned r4 with
          | Option.none => hours * 3600 + minutes * 60
          | some (secs, _) => hours * 3600 + minutes * 60 + secs
        | _ => hours * 3600 + minutes * 60
    | _ => hours * 3600

/-! Ring buffer, translated from utils.c / utils.h.  The backing array is the
buffer field; success/failure of put and get (the C bool return with an out
parameter) is modelled with Option. -/

/-- utils_ring_buffer_t from utils.h. -/
structure utils_ring_buffer_t where
  buffer : List Nat
  size : Nat
  head : Nat
  tail : Nat
  count : Nat
deriving DecidableEq

/-- utils_ring_buffer_init from utils.c: rejects a zero size (and the C null
checks have no counterpart); the caller-provided backing array of the given
size is taken as the initial buffer contents. -/
def utils_ring_buffer_init (backing : List Nat) (size : Nat) : Option utils_ring_buffer_t :=
  if size = 0 || backing.length ≠ size then Option.none
  else some { buffer := backing, size := size, head := 0, tail := 0, count := 0 }

/-- utils_ring_buffer_put from utils.c: fails when count has reached size;
otherwise writes at tail, advances tail modulo size, increments count. -/
def utils_ring_buffer_put (rb : utils_ring_buffer_t) (byte : Nat) : Option utils_ring_buffer_t :=
  if rb.size ≤ rb.count then Option.none
  else some { rb with
    buffer := rb.buffer.set rb.tail byte
    tail := (rb.tail + 1) % rb.size
    count := rb.count + 1 }

/-- utils_ring_buffer_get from utils.c: fails when count is zero; otherwise
returns the byte at head, advances head modulo size, decrements count. -/
def utils_ring_buffer_get (rb : utils_ring_buffer_t) : Option (Nat × utils_ring_buffer_t) :=
  if rb.count = 0 then Option.none
  else some (rb.buffer.getD rb.head 0,
    { rb with head := (rb.head + 1) % rb.size, count := rb.count - 1 })

/-! Lock session engine operations.  The engine is not implemented as C code
in the repository; these are modelled from the spec (section 4.2) and the
lock design document (sections 3.3, 4 and 5). -/

/-- Modelled from the spec: remaining_seconds (spec section 4.2, lock design
document section 3.3.1) — zero when there is no timed target or the target
is not in the future, otherwise the difference to the target. -/
def remaining_seconds (s : LockSession) (now_utc : Nat) : Nat :=
  if s.unlock_target_utc = 0 then 0
  else if s.unlock_target_utc ≤ now_utc then 0
  else s.unlock_target_utc - now_utc

/-- Modelled from the spec: tick (spec section 4.2, lock design document
section 3.3.3) — only meaningful while Locked; adds the time elapsed since
the last known tick baseline to the accumulated session time and advances
the baseline; no accrual in any other state (in particular BreakActive). -/
def tick (s : LockSession) (now_utc : Nat) : LockSession :=
  if s.operational_state = OperationalState.Locked then
    { s with
      session_accumulated_seconds :=
        s.session_accumulated_seconds + (now_utc - s.last_tick_utc)
      last_tick_utc := max s.last_tick_utc now_utc }
  else s

/-- Outcome of end_break, from the spec (section 4.2). -/
inductive BreakOutcome where
  | onTime
  | overdue
deriving DecidableEq

/-- Modelled from the spec: end_break (spec section 4.2, lock design document
sections 3.4 and 5.3).  Requires BreakActive (none models the
InvalidStateTransition rejection).  Computes the elapsed break time, extends
a nonzero unlock target by exactly that amount, returns to Locked, applies
the overdue penalty (accumulated time reset to 0) strictly above the allowed
duration, and resets the tick baseline to now so break time is never
accrued. -/
def end_break (s : LockSession) (now_utc : Nat) : Option (LockSession × BreakOutcome) :=
  if s.operational_state = OperationalState.BreakActive then
    let break_elapsed := now_utc - s.break_start_utc
    let new_target :=
      if s.unlock_target_utc = 0 then 0 else s.unlock_target_utc + break_elapsed
    if break_elapsed ≤ s.break_allowed_seconds then
      some ({ s with
        operational_state := OperationalState.Locked
        unlock_target_utc := new_target
        last_tick_utc := now_utc }, BreakOutcome.onTime)
    else
      some ({ s with
        operational_state := OperationalState.Locked
        unlock_target_utc := new_target
        session_accumulated_seconds := 0
        last_tick_utc := now_utc }, BreakOutcome.overdue)
  else Option.none

/-- Error kinds of configure, from the spec (section 7). -/
inductive ConfigError where
  | invalidConfig
  | invalidStateTransition
deriving DecidableEq

/-- Modelled from the spec: type-specific configuration validation (spec
section 4.2): a Custom duration must lie within the app_config.h bounds; a
KeyholderBasic PIN is checked by the repository's utils_validate_pin; the
variant must match the lock type. -/
def validate_config : LockType → ModeConfig → Bool
  | LockType.custom, ModeConfig.customCfg d =>
    decide (CONFIG_LOCK_MIN_DURATION_SECONDS ≤ d ∧ d ≤ CONFIG_LOCK_MAX_DURATION_SECONDS)
  | LockType.keyholderBasic, ModeConfig.basicCfg pin => utils_validate_pin pin
  | LockType.agent, ModeConfig.agentCfg _ => true
  | LockType.keyholderRemote, ModeConfig.remoteCfg _ => true
  | LockType.noneLock, ModeConfig.noCfg => true
  | _, _ => false

/-- Modelled from the spec: configure (spec section 4.2) — allowed only in
Unlocked or Configuring; on valid input sets the lock type and mode config
and moves to Configuring; on invalid input reports InvalidConfig. -/
def configure (s : LockSession) (t : LockType) (c : ModeConfig) :
    Except ConfigError LockSession :=
  if s.operational_state = OperationalState.Unlocked
      ∨ s.operational_state = OperationalState.Configuring then
    if validate_config t c then
      Except.ok { s with
        active_lock_type := t
        mode_config := c
        operational_state := OperationalState.Configuring }
    else Except.error ConfigError.invalidConfig
  else Except.error ConfigError.invalidStateTransition

/-- The session the caller holds after a configure call: the new session on
success, the untouched old session on error (the spec requires the session
unchanged when validation fails). -/
def configure_result_session (s : LockSession) (t : LockType) (c : ModeConfig) : LockSession :=
  match configure s t c with
  | Except.ok s2 => s2
  | Except.error _ => s

/-! Rolling-key validation, modelled from the spec (section 4.4) and the lock
design document (section 4.5, Unlock Key Processing).  The index-to-expected-
key derivation is an injected pure function, as the spec prescribes. -/

/-- The three independent rolling-key credential streams of
KeyholderRemoteConfig. -/
inductive KeyKind where
  | unlockKey
  | cleaningKey
  | configKey
deriving DecidableEq

/-- The stored index for a credential stream. -/
def keyIndex (cfg : KeyholderRemoteConfig) : KeyKind → Nat
  | KeyKind.unlockKey => cfg.unlock_key_index
  | KeyKind.cleaningKey => cfg.cleaning_key_index
  | KeyKind.configKey => cfg.config_key_index

/-- Update the stored index for a credential stream. -/
def setKeyIndex (cfg : KeyholderRemoteConfig) : KeyKind → Nat → KeyholderRemoteConfig
  | KeyKind.unlockKey, n => { cfg with unlock_key_index := n }
  | KeyKind.cleaningKey, n => { cfg with cleaning_key_index := n }
  | KeyKind.configKey, n => { cfg with config_key_index := n }

/-- Modelled from the spec: the window walk of rolling-key validation — scan
candidate indices upward from start for fuel positions and return the first
(hence lowest) index whose derived expected key equals the presented key. -/
def findMatch (derive : Nat → Nat) (key : Nat) : Nat → Nat → Option Nat
  | _, 0 => Option.none
  | start, fuel + 1 =>
    if derive start = key then some start else findMatch derive key (start + 1) fuel

/-- Modelled from the spec: rolling-key processing for one credential stream
(spec section 4.4): scan the window of the given size starting at the stored
index; on a match at index m, advance the stored index to m + 1 and accept;
on no match, reject and leave the configuration unchanged. -/
def processKey (derive : Nat → Nat) (window : Nat) (cfg : KeyholderRemoteConfig)
    (kind : KeyKind) (key : Nat) : KeyholderRemoteConfig × Bool :=
  match findMatch derive key (keyIndex cfg kind) window with
  | some m => (setKeyIndex cfg kind (m + 1), true)
  | Option.none => (cfg, false)

/-- A sequence of rolling-key engine operations applied to a
KeyholderRemoteConfig (the only engine operations that mutate the stored
credential indices). -/
def runKeys (derive : Nat → Nat) (window : Nat) :
    KeyholderRemoteConfig → List (KeyKind × Nat) → KeyholderRemoteConfig
  | cfg, [] => cfg
  | cfg, (kind, key) :: rest =>
    runKeys derive window (processKey derive window cfg kind key).1 rest

/-! Persistence framing, modelled from the spec (section 4.1): a versioned
serialized payload followed by its CRC-16 computed by the repository's
utils_crc16. -/

/-- Little-endian 16-bit encoding. -/
def le16 (n : Nat) : List Nat := [n % 256, n / 256 % 256]

/-- Little-endian 32-bit encoding. -/
def le32 (n : Nat) : List Nat := [n % 256, n / 256 % 256, n / 65536 % 256, n / 16777216 % 256]

/-- Serialization tag of a LockType (its C enum value). -/
def lockTypeTag : LockType → Nat
  | LockType.noneLock => 0
  | LockType.agent => 1
  | LockType.custom => 2
  | LockType.keyholderBasic => 3
  | LockType.keyholderRemote => 4

/-- Serialization tag of an OperationalState (its C enum value). -/
def stateTag : OperationalState → Nat
  | OperationalState.Unlocked => 0
  | OperationalState.Configuring => 1
  | OperationalState.AwaitingDoorClose => 2
  | OperationalState.Locked => 3
  | OperationalState.PendingUnlock => 4
  | OperationalState.BreakActive => 5
  | OperationalState.ErrorState => 6

/-- Modelled from the spec: fixed-layout encoding of the mode configuration
(a variant tag followed by the variant's fields). -/
def modeConfigBytes : ModeConfig → List Nat
  | ModeConfig.noCfg => [0]
  | ModeConfig.agentCfg agent_id => [1, agent_id % 256]
  | ModeConfig.customCfg d => 2 :: le32 d
  | ModeConfig.basicCfg pin => 3 :: pin.length % 256 :: pin
  | ModeConfig.remoteCfg r =>
    4 :: (le32 r.unlock_key_index ++ le32 r.cleaning_key_index
      ++ le32 r.config_key_index ++ le16 r.break_duration_minutes)

/-- Version byte of the persisted layout (spec section 4.1: a leading
version field). -/
def SERIAL_VERSION : Nat := 1

/-- Modelled from the spec: serialize (spec section 4.1) — a leading version
byte, then a fixed-layout encoding of every LockSession field of spec
section 3 (the engine-implicit tick baseline is not a persisted field). -/
def serializeLockSession (s : LockSession) : List Nat :=
  SERIAL_VERSION :: lockTypeTag s.active_lock_type :: stateTag s.operational_state ::
    (modeConfigBytes s.mode_config ++ le32 s.lock_start_utc ++ le32 s.unlock_target_utc
      ++ le32 s.session_accumulated_seconds ++ le32 s.break_start_utc
      ++ le16 s.break_allowed_seconds)

/-- Modelled from the spec: save framing (spec section 4.1) — the serialized
payload with its CRC-16 appended. -/
def save_frame (payload : List Nat) : List Nat := payload ++ le16 (utils_crc16 payload)

/-- Modelled from the spec: load framing (spec section 4.1) — split payload
and CRC, recompute the CRC over the payload and compare, and check the
version byte; any mismatch is the IntegrityError outcome, modelled as none. -/
def load_frame (blob : List Nat) : Option (List Nat) :=
  if blob.length < 2 then Option.none
  else
    let payload := blob.take (blob.length - 2)
    let stored := blob.getD (blob.length - 2) 0 + 256 * blob.getD (blob.length - 1) 0
    if utils_crc16 payload = stored ∧ payload.getD 0 0 = SERIAL_VERSION then some payload
    else Option.none

/-- Flip one bit of one byte of a byte string. -/
def flip_bit (blob : List Nat) (byteIdx bitIdx : Nat) : List Nat :=
  blob.set byteIdx ((blob.getD byteIdx 0) ^^^ (1 <<< bitIdx))

end CKOS

namespace CKOS

/-! Concrete sessions used by witnesses and counterexamples. -/

/-- A Locked Custom session used for concrete evaluations. -/
def demoSession : LockSession :=
  { active_lock_type := LockType.custom
    operational_state := OperationalState.Locked
    mode_config := ModeConfig.customCfg 3600
    lock_start_utc := 1000
    unlock_target_utc := 4600
    session_accumulated_seconds := 120
    break_start_utc := 0
    break_allowed_seconds := 0
    last_tick_utc := 1120 }

/-- A session in an active break used for concrete evaluations. -/
def demoBreakSession : LockSession :=
  { active_lock_type := LockType.custom
    operational_state := OperationalState.BreakActive
    mode_config := ModeConfig.customCfg 3600
    lock_start_utc := 1000
    unlock_target_utc := 4600
    session_accumulated_seconds := 1800
    break_start_utc := 5000
    break_allowed_seconds := 300
    last_tick_utc := 5000 }

/-- An Unlocked session used for concrete evaluations. -/
def demoUnlocked : LockSession :=
  { active_lock_type := LockType.noneLock
    operational_state := OperationalState.Unlocked
    mode_config := ModeConfig.noCfg
    lock_start_utc := 0
    unlock_target_utc := 0
    session_accumulated_seconds := 0
    break_start_utc := 0
    break_allowed_seconds := 0
    last_tick_utc := 0 }

/-- C7: remaining_seconds returns 0 when there is no target or the target is
not in the future, returns the difference otherwise, and a target equal to
now yields 0.  (The query is a pure function of the session in this model,
so it mutates nothing by construction.) -/
theorem remaining_seconds_spec (s : LockSession) (now_utc : Nat) :
    (s.unlock_target_utc = 0 ∨ s.unlock_target_utc ≤ now_utc →
      remaining_seconds s now_utc = 0) ∧
    (s.unlock_target_utc ≠ 0 → now_utc < s.unlock_target_utc →
      remaining_seconds s now_utc = s.unlock_target_utc - now_utc) ∧
    (s.unlock_target_utc = now_utc → remaining_seconds s now_utc = 0) := by
  unfold remaining_seconds
  split_ifs with h1 h2
  · exact ⟨fun _ => rfl, fun hne _ => absurd h1 hne, fun _ => rfl⟩
  · exact ⟨fun _ => rfl, fun _ hlt => absurd h2 (by omega), fun _ => rfl⟩
  · refine ⟨?_, fun _ _ => rfl, ?_⟩
    · rintro (h | h)
      · exact absurd h h1
      · exact absurd h h2
    · intro h
      omega

/-- Witness for C7 at a concrete session: an expired target yields 0 and a
future target yields the difference. -/
theorem remaining_seconds_spec_witness :
    remaining_seconds demoSession 4600 = 0 ∧ remaining_seconds demoSession 1600 = 3000 :=
  ⟨(remaining_seconds_spec demoSession 4600).1 (Or.inr (by decide)),
   (remaining_seconds_spec demoSession 1600).2.1 (by decide) (by decide)⟩

/-- C8: tick is idempotent at a fixed clock reading — a second tick at the
same now_utc changes nothing. -/
theorem tick_idempotent (s : LockSession) (now_utc : Nat) :
    tick (tick s now_utc) now_utc = tick s now_utc := by
  by_cases h : s.operational_state = OperationalState.Locked
  · have hsub : now_utc - max s.last_tick_utc now_utc = 0 :=
      Nat.sub_eq_zero_of_le (Nat.le_max_right _ _)
    have hmax : max (max s.last_tick_utc now_utc) now_utc = max s.last_tick_utc now_utc :=
      max_eq_left (Nat.le_max_right _ _)
    simp [tick, h, hsub, hmax]
  · simp [tick, h]

/-- C1: ending a break from BreakActive always returns to Locked; at or
under the allowed duration the outcome is on-time and the accumulated time
is unchanged (the boundary counts as on-time); strictly above it the outcome
is Overdue and the accumulated time is reset to 0; a nonzero unlock target
is extended by exactly the elapsed break time in both cases. -/
theorem end_break_spec (s : LockSession) (now_utc : Nat)
    (hstate : s.operational_state = OperationalState.BreakActive)
    (hnow : s.break_start_utc ≤ now_utc) :
    ∃ s' oc, end_break s now_utc = some (s', oc) ∧
      s'.operational_state = OperationalState.Locked ∧
      (now_utc - s.break_start_utc ≤ s.break_allowed_seconds →
        oc = BreakOutcome.onTime ∧
        s'.session_accumulated_seconds = s.session_accumulated_seconds) ∧
      (s.break_allowed_seconds < now_utc - s.break_start_utc →
        oc = BreakOutcome.overdue ∧ s'.session_accumulated_seconds = 0) ∧
      (s.unlock_target_utc ≠ 0 →
        s'.unlock_target_utc = s.unlock_target_utc + (now_utc - s.break_start_utc)) := by
  unfold end_break
  rw [if_pos hstate]
  by_cases he : now_utc - s.break_start_utc ≤ s.break_allowed_seconds
  · rw [if_pos he]
    refine ⟨_, _, rfl, rfl, fun _ => ⟨rfl, rfl⟩, fun hlt => absurd he (by omega), ?_⟩
    intro htgt
    simp [htgt]
  · rw [if_neg he]
    refine ⟨_, _, rfl, rfl, fun hle => absurd hle he, fun _ => ⟨rfl, rfl⟩, ?_⟩
    intro htgt
    simp [htgt]

/-- Witness for C1: the spec's break scenario (break at 5000 with 300
allowed, ended at 5200) through end_break_spec. -/
theorem end_break_spec_witness :
    demoBreakSession.operational_state = OperationalState.BreakActive ∧
    demoBreakSession.break_start_utc ≤ 5200 ∧
    (∃ s' oc, end_break demoBreakSession 5200 = some (s', oc) ∧
      s'.operational_state = OperationalState.Locked ∧
      (5200 - demoBreakSession.break_start_utc ≤ demoBreakSession.break_allowed_seconds →
        oc = BreakOutcome.onTime ∧
        s'.session_accumulated_seconds = demoBreakSession.session_accumulated_seconds) ∧
      (demoBreakSession.break_allowed_seconds < 5200 - demoBreakSession.break_start_utc →
        oc = BreakOutcome.overdue ∧ s'.session_accumulated_seconds = 0) ∧
      (demoBreakSession.unlock_target_utc ≠ 0 →
        s'.unlock_target_utc =
          demoBreakSession.unlock_target_utc + (5200 - demoBreakSession.break_start_utc))) :=
  ⟨rfl, by decide, end_break_spec demoBreakSession 5200 rfl (by decide)⟩

end CKOS

namespace CKOS

/-- Characterization of is_ascii_digit. -/
theorem is_ascii_digit_iff (b : Nat) : is_ascii_digit b = true ↔ 48 ≤ b ∧ b ≤ 57 := by
  simp [is_ascii_digit]

/-- Characterization of utils_validate_pin: accepted exactly when the length
is between 4 and 8 and every byte is an ASCII digit. -/
theorem utils_validate_pin_iff (pin : List Nat) :
    utils_validate_pin pin = true ↔
      (4 ≤ pin.length ∧ pin.length ≤ 8 ∧ ∀ b ∈ pin, 48 ≤ b ∧ b ≤ 57) := by
  unfold utils_validate_pin
  split_ifs with h
  · simp only [Bool.or_eq_true, decide_eq_true_eq] at h
    exact iff_of_false (by simp) (fun hc => by
      rcases hc with ⟨h1, h2, _⟩
      omega)
  · simp only [Bool.or_eq_true, decide_eq_true_eq, not_or, not_lt] at h
    simp only [List.all_eq_true]
    constructor
    · intro hall
      exact ⟨h.1, h.2, fun b hb => (is_ascii_digit_iff b).mp (hall b hb)⟩
    · intro hc b hb
      exact (is_ascii_digit_iff b).mpr (hc.2.2 b hb)

/-- C5: in Unlocked or Configuring, configuring a Custom lock succeeds
exactly when the duration lies in [60, 100*365*24*3600]; out-of-range
durations are rejected with InvalidConfig and leave the session unchanged. -/
theorem configure_custom_duration_spec (s : LockSession) (d : Nat)
    (hstate : s.operational_state = OperationalState.Unlocked ∨
      s.operational_state = OperationalState.Configuring) :
    ((configure s LockType.custom (ModeConfig.customCfg d)).isOk = true ↔
      (60 ≤ d ∧ d ≤ 100 * 365 * 24 * 3600)) ∧
    (¬(60 ≤ d ∧ d ≤ 100 * 365 * 24 * 3600) →
      configure s LockType.custom (ModeConfig.customCfg d)
          = Except.error ConfigError.invalidConfig ∧
      configure_result_session s LockType.custom (ModeConfig.customCfg d) = s) := by
  have hval : validate_config LockType.custom (ModeConfig.customCfg d)
      = decide (60 ≤ d ∧ d ≤ 100 * 365 * 24 * 3600) := rfl
  unfold configure
  rw [if_pos hstate, hval]
  by_cases hd : 60 ≤ d ∧ d ≤ 100 * 365 * 24 * 3600
  · rw [if_pos (decide_eq_true hd)]
    exact ⟨iff_of_true rfl hd, fun hc => absurd hd hc⟩
  · rw [if_neg (by simpa using hd)]
    refine ⟨iff_of_false (by simp [Except.isOk, Except.toBool]) hd, fun _ => ⟨rfl, ?_⟩⟩
    unfold configure_result_session configure
    rw [if_pos hstate, hval, if_neg (by simpa using hd)]

/-- Witness for C5: 60 and the 100-year maximum are accepted; 59 and one
second over the maximum are rejected with InvalidConfig. -/
theorem configure_custom_duration_spec_witness :
    (configure demoUnlocked LockType.custom (ModeConfig.customCfg 60)).isOk = true ∧
    configure demoUnlocked LockType.custom (ModeConfig.customCfg 59)
      = Except.error ConfigError.invalidConfig ∧
    (configure demoUnlocked LockType.custom
      (ModeConfig.customCfg (100 * 365 * 24 * 3600))).isOk = true ∧
    configure demoUnlocked LockType.custom (ModeConfig.customCfg (100 * 365 * 24 * 3600 + 1))
      = Except.error ConfigError.invalidConfig :=
  ⟨(configure_custom_duration_spec demoUnlocked 60 (Or.inl rfl)).1.mpr (by decide),
   ((configure_custom_duration_spec demoUnlocked 59 (Or.inl rfl)).2 (by decide)).1,
   (configure_custom_duration_spec demoUnlocked (100 * 365 * 24 * 3600)
      (Or.inl rfl)).1.mpr (by decide),
   ((configure_custom_duration_spec demoUnlocked (100 * 365 * 24 * 3600 + 1)
      (Or.inl rfl)).2 (by decide)).1⟩

/-- C6 counterexample: the claim says a KeyholderBasic configure succeeds
only for a PIN of exactly 8 digits, but the repository's utils_validate_pin
accepts 4 to 8 digits: the 4-digit PIN 1234 is accepted. -/
theorem configure_basic_pin_counterexample :
    (configure demoUnlocked LockType.keyholderBasic
      (ModeConfig.basicCfg [49, 50, 51, 52])).isOk = true ∧
    ([49, 50, 51, 52] : List Nat).length ≠ 8 := by decide

/-- C6 as amended: in Unlocked or Configuring, a KeyholderBasic configure
succeeds exactly when the PIN is 4 to 8 ASCII digit characters; any other
PIN is rejected with InvalidConfig and the session is unchanged. -/
theorem configure_basic_pin_spec (s : LockSession) (pin : List Nat)
    (hstate : s.operational_state = OperationalState.Unlocked ∨
      s.operational_state = OperationalState.Configuring) :
    ((configure s LockType.keyholderBasic (ModeConfig.basicCfg pin)).isOk = true ↔
      (4 ≤ pin.length ∧ pin.length ≤ 8 ∧ ∀ b ∈ pin, 48 ≤ b ∧ b ≤ 57)) ∧
    (¬(4 ≤ pin.length ∧ pin.length ≤ 8 ∧ ∀ b ∈ pin, 48 ≤ b ∧ b ≤ 57) →
      configure s LockType.keyholderBasic (ModeConfig.basicCfg pin)
          = Except.error ConfigError.invalidConfig ∧
      configure_result_session s LockType.keyholderBasic (ModeConfig.basicCfg pin) = s) := by
  have hval : validate_config LockType.keyholderBasic (ModeConfig.basicCfg pin)
      = utils_validate_pin pin := rfl
  unfold configure
  rw [if_pos hstate, hval]
  by_cases hp : 4 ≤ pin.length ∧ pin.length ≤ 8 ∧ ∀ b ∈ pin, 48 ≤ b ∧ b ≤ 57
  · rw [if_pos ((utils_validate_pin_iff pin).mpr hp)]
    exact ⟨iff_of_true rfl hp, fun hc => absurd hp hc⟩
  · have hv : ¬ utils_validate_pin pin = true := fun hc =>
      hp ((utils_validate_pin_iff pin).mp hc)
    rw [if_neg hv]
    refine ⟨iff_of_false (by simp [Except.isOk, Except.toBool]) hp, fun _ => ⟨rfl, ?_⟩⟩
    unfold configure_result_session configure
    rw [if_pos hstate, hval, if_neg hv]

/-- Witness for the amended C6: the 8-digit PIN 12345678 is accepted and the
3-digit PIN 123 is rejected with InvalidConfig. -/
theorem configure_basic_pin_spec_witness :
    (configure demoUnlocked LockType.keyholderBasic
      (ModeConfig.basicCfg [49, 50, 51, 52, 53, 54, 55, 56])).isOk = true ∧
    configure demoUnlocked LockType.keyholderBasic (ModeConfig.basicCfg [49, 50, 51])
      = Except.error ConfigError.invalidConfig :=
  ⟨(configure_basic_pin_spec demoUnlocked [49, 50, 51, 52, 53, 54, 55, 56]
      (Or.inl rfl)).1.mpr (by decide),
   ((configure_basic_pin_spec demoUnlocked [49, 50, 51] (Or.inl rfl)).2 (by decide)).1⟩

set_option maxRecDepth 10000 in
/-- C4: with the repository's utils_crc16 (whose static table is abbreviated
to its first 16 entries, the other 240 being zero-initialized), single-bit
corruption is not always detected: flipping bit 0 of byte 8 of a saved
LockSession blob (the low byte of lock_start_utc, turning 1000 into 1001)
leaves the CRC unchanged, so load accepts the corrupted blob instead of
returning IntegrityError. -/
theorem crc_single_bit_flip_undetected :
    load_frame (flip_bit (save_frame (serializeLockSession demoSession)) 8 0)
        = some (flip_bit (serializeLockSession demoSession) 8 0) ∧
    flip_bit (serializeLockSession demoSession) 8 0 ≠ serializeLockSession demoSession := by
  decide

end CKOS

namespace CKOS

/-- Every successful window scan returns the lowest in-window index whose
derived key matches. -/
theorem findMatch_some_spec (derive : Nat → Nat) (key : Nat) :
    ∀ fuel start m, findMatch derive key start fuel = some m →
      start ≤ m ∧ m < start + fuel ∧ derive m = key ∧
      ∀ j, start ≤ j → j < m → derive j ≠ key := by
  intro fuel
  induction fuel with
  | zero =>
    intro start m h
    simp [findMatch] at h
  | succ n ih =>
    intro start m h
    rw [findMatch] at h
    by_cases hd : derive start = key
    · rw [if_pos hd] at h
      cases h
      exact ⟨le_refl _, by omega, hd, fun j hj1 hj2 => by omega⟩
    · rw [if_neg hd] at h
      obtain ⟨h1, h2, h3, h4⟩ := ih (start + 1) m h
      refine ⟨by omega, by omega, h3, ?_⟩
      intro j hj1 hj2
      rcases Nat.eq_or_lt_of_le hj1 with he | hl
      · rw [← he]
        exact hd
      · exact h4 j hl hj2

/-- The window scan succeeds exactly when some in-window candidate index has
a matching derived key. -/
theorem findMatch_isSome_iff (derive : Nat → Nat) (key : Nat) :
    ∀ fuel start, (findMatch derive key start fuel).isSome = true ↔
      ∃ i, i < fuel ∧ derive (start + i) = key := by
  intro fuel
  induction fuel with
  | zero =>
    intro start
    simp [findMatch]
  | succ n ih =>
    intro start
    rw [findMatch]
    by_cases hd : derive start = key
    · rw [if_pos hd]
      simp only [Option.isSome_some, true_iff]
      exact ⟨0, by omega, by simpa using hd⟩
    · rw [if_neg hd, ih (start + 1)]
      constructor
      · rintro ⟨i, hi, he⟩
        refine ⟨i + 1, by omega, ?_⟩
        have harith : start + (i + 1) = start + 1 + i := by omega
        rw [harith]
        exact he
      · rintro ⟨i, hi, he⟩
        cases i with
        | zero => exact absurd (by simpa using he) hd
        | succ j =>
          refine ⟨j, by omega, ?_⟩
          have harith : start + 1 + j = start + (j + 1) := by omega
          rw [harith]
          exact he

/-- Updating a credential stream's index changes exactly that stream. -/
theorem keyIndex_set_same (cfg : KeyholderRemoteConfig) (kind : KeyKind) (n : Nat) :
    keyIndex (setKeyIndex cfg kind n) kind = n := by
  cases kind <;> rfl

/-- Updating one credential stream leaves the other streams' indices
untouched. -/
theorem keyIndex_set_other (cfg : KeyholderRemoteConfig) (kind kind2 : KeyKind) (n : Nat)
    (h : kind2 ≠ kind) : keyIndex (setKeyIndex cfg kind n) kind2 = keyIndex cfg kind2 := by
  cases kind <;> cases kind2 <;> first | rfl | exact absurd rfl h

/-- C2: rolling-key validation accepts a key exactly when its derived value
matches at some index in the window starting at the stored index; on a match
the scan picks the lowest matching index m, the stored index of that stream
becomes m + 1 and the other streams are untouched; on no match the attempt
is rejected and the configuration is unchanged.  The quantification over
kind covers the unlock, cleaning and config streams. -/
theorem rolling_key_window_spec (derive : Nat → Nat) (window : Nat)
    (cfg : KeyholderRemoteConfig) (kind : KeyKind) (key : Nat) :
    ((processKey derive window cfg kind key).2 = true ↔
      ∃ i, i < window ∧ derive (keyIndex cfg kind + i) = key) ∧
    (∀ m, findMatch derive key (keyIndex cfg kind) window = some m →
      keyIndex cfg kind ≤ m ∧ m < keyIndex cfg kind + window ∧ derive m = key ∧
      (∀ j, keyIndex cfg kind ≤ j → j < m → derive j ≠ key) ∧
      (processKey derive window cfg kind key).1 = setKeyIndex cfg kind (m + 1) ∧
      keyIndex (processKey derive window cfg kind key).1 kind = m + 1 ∧
      (∀ kind2, kind2 ≠ kind →
        keyIndex (processKey derive window cfg kind key).1 kind2 = keyIndex cfg kind2)) ∧
    ((processKey derive window cfg kind key).2 = false →
      (processKey derive window cfg kind key).1 = cfg) := by
  cases hfm : findMatch derive key (keyIndex cfg kind) window with
  | none =>
    have hp : processKey derive window cfg kind key = (cfg, false) := by
      unfold processKey
      rw [hfm]
    rw [hp]
    refine ⟨?_, ?_, fun _ => rfl⟩
    · simp only [Bool.false_eq_true, false_iff]
      intro hc
      have hs : (findMatch derive key (keyIndex cfg kind) window).isSome = true :=
        (findMatch_isSome_iff derive key window (keyIndex cfg kind)).mpr hc
      rw [hfm] at hs
      simp at hs
    · intro m hm
      exact absurd hm (by simp)
  | some m0 =>
    have hp : processKey derive window cfg kind key = (setKeyIndex cfg kind (m0 + 1), true) := by
      unfold processKey
      rw [hfm]
    rw [hp]
    obtain ⟨h1, h2, h3, h4⟩ := findMatch_some_spec derive key window (keyIndex cfg kind) m0 hfm
    refine ⟨iff_of_true rfl ?_, ?_, fun hc => by simp at hc⟩
    · exact (findMatch_isSome_iff derive key window (keyIndex cfg kind)).mp (by rw [hfm]; rfl)
    · intro m hm
      injection hm with hm0
      subst hm0
      exact ⟨h1, h2, h3, h4, rfl, keyIndex_set_same cfg kind (m0 + 1),
        fun kind2 hk => keyIndex_set_other cfg kind kind2 (m0 + 1) hk⟩

/-- A KeyholderRemote configuration with stored unlock index 50, as in the
spec's rolling-key scenario. -/
def cfg50 : KeyholderRemoteConfig :=
  { unlock_key_index := 50, cleaning_key_index := 10, config_key_index := 20
    break_duration_minutes := 15 }

/-- Witness for C2: with the identity derivation, window 100 and stored
unlock index 50, the key deriving to index 120 is accepted and the stored
unlock index becomes 121. -/
theorem rolling_key_window_spec_witness :
    (processKey (fun n => n) 100 cfg50 KeyKind.unlockKey 120).2 = true ∧
    (processKey (fun n => n) 100 cfg50 KeyKind.unlockKey 120).1
      = setKeyIndex cfg50 KeyKind.unlockKey 121 :=
  ⟨(rolling_key_window_spec (fun n => n) 100 cfg50 KeyKind.unlockKey 120).1.mpr
      ⟨70, by decide, rfl⟩,
   ((rolling_key_window_spec (fun n => n) 100 cfg50 KeyKind.unlockKey 120).2.1 120
      (by decide)).2.2.2.2.1⟩

/-- One rolling-key operation never decreases any stored credential index. -/
theorem processKey_index_mono (derive : Nat → Nat) (window : Nat)
    (cfg : KeyholderRemoteConfig) (kind : KeyKind) (key : Nat) (kind2 : KeyKind) :
    keyIndex cfg kind2 ≤ keyIndex (processKey derive window cfg kind key).1 kind2 := by
  unfold processKey
  cases hfm : findMatch derive key (keyIndex cfg kind) window with
  | none => exact le_refl _
  | some m =>
    obtain ⟨h1, _, _, _⟩ := findMatch_some_spec derive key window (keyIndex cfg kind) m hfm
    by_cases hk : kind2 = kind
    · rw [hk, keyIndex_set_same]
      omega
    · rw [keyIndex_set_other cfg kind kind2 (m + 1) hk]

/-- C3: over every sequence of rolling-key engine operations each stored
credential index is monotonically non-decreasing, and (for an injective
derivation) a key whose derived index lies below the current stored index —
in particular any previously accepted key — is rejected and leaves the
configuration unchanged. -/
theorem rolling_key_indices_monotone (derive : Nat → Nat) (window : Nat)
    (hinj : Function.Injective derive) :
    (∀ cfg ops kind, keyIndex cfg kind ≤ keyIndex (runKeys derive window cfg ops) kind) ∧
    (∀ cfg kind m, m < keyIndex cfg kind →
      (processKey derive window cfg kind (derive m)).2 = false ∧
      (processKey derive window cfg kind (derive m)).1 = cfg) := by
  constructor
  · intro cfg ops
    induction ops generalizing cfg with
    | nil => intro kind; exact le_refl _
    | cons op rest ih =>
      intro kind
      calc keyIndex cfg kind
          ≤ keyIndex (processKey derive window cfg op.1 op.2).1 kind :=
            processKey_index_mono derive window cfg op.1 op.2 kind
        _ ≤ keyIndex (runKeys derive window (processKey derive window cfg op.1 op.2).1 rest) kind :=
            ih (processKey derive window cfg op.1 op.2).1 kind
  · intro cfg kind m hm
    have hno : findMatch derive (derive m) (keyIndex cfg kind) window = Option.none := by
      cases hfm : findMatch derive (derive m) (keyIndex cfg kind) window with
      | none => rfl
      | some j =>
        obtain ⟨h1, _, h3, _⟩ :=
          findMatch_some_spec derive (derive m) window (keyIndex cfg kind) j hfm
        have hjm : j = m := hinj h3
        omega
    unfold processKey
    rw [hno]
    exact ⟨rfl, rfl⟩

/-- The configuration after the spec's replay scenario: stored unlock index
already advanced to 121. -/
def cfg121 : KeyholderRemoteConfig :=
  { unlock_key_index := 121, cleaning_key_index := 10, config_key_index := 20
    break_duration_minutes := 15 }

/-- Witness for C3 at the spec's example: with identity derivation and
window 100, re-presenting the key of index 120 against stored index 121 is
rejected, and an accepted key only advances the index. -/
theorem rolling_key_indices_monotone_witness :
    (processKey (fun n => n) 100 cfg121 KeyKind.unlockKey 120).2 = false ∧
    keyIndex cfg50 KeyKind.unlockKey ≤
      keyIndex (runKeys (fun n => n) 100 cfg50 [(KeyKind.unlockKey, 120)]) KeyKind.unlockKey :=
  ⟨((rolling_key_indices_monotone (fun n => n) 100 (fun _ _ h => h)).2 cfg121
      KeyKind.unlockKey 120 (by decide)).1,
   (rolling_key_indices_monotone (fun n => n) 100 (fun _ _ h => h)).1 cfg50
      [(KeyKind.unlockKey, 120)] KeyKind.unlockKey⟩

end CKOS

namespace CKOS

/-- The digit loop stops in front of a non-digit (or at the end). -/
theorem scan_unsigned_stop (acc : Nat) (rest : List Nat)
    (h : ∀ b, rest.head? = some b → is_ascii_digit b = false) :
    scan_unsigned acc rest = (acc, rest) := by
  cases rest with
  | nil => rfl
  | cons b rs =>
    rw [scan_unsigned, if_neg]
    rw [h b rfl]
    simp

/-- Parsing a two-digit zero-padded number followed by a non-digit yields
the number and leaves the rest untouched. -/
theorem parse_two_digit (n : Nat) (hn : n ≤ 99) (rest : List Nat)
    (h : ∀ b, rest.head? = some b → is_ascii_digit b = false) :
    parse_unsigned (two_digit_bytes n ++ rest) = some (n, rest) := by
  have hd1 : is_ascii_digit (48 + n / 10) = true := by
    rw [is_ascii_digit_iff]
    omega
  have hd2 : is_ascii_digit (48 + n % 10) = true := by
    rw [is_ascii_digit_iff]
    omega
  show parse_unsigned ((48 + n / 10) :: (48 + n % 10) :: rest) = some (n, rest)
  rw [parse_unsigned, if_pos hd1, scan_unsigned, if_pos hd2,
    scan_unsigned_stop _ rest h]
  have e1 : 48 + n / 10 - 48 = n / 10 := by omega
  have e2 : (n / 10) * 10 + (48 + n % 10 - 48) = n := by omega
  rw [e1, e2]

/-- Parsing the formatter's HH:MM:SS byte string recovers
hours, minutes and seconds. -/
theorem parse_formatted_time (h m sec : Nat) (hh : h ≤ 99) (hm : m ≤ 99) (hs : sec ≤ 99) :
    utils_time_string_to_seconds
        (two_digit_bytes h ++ 58 :: (two_digit_bytes m ++ 58 :: two_digit_bytes sec))
      = h * 3600 + m * 60 + sec := by
  have hcolon : ∀ (t : List Nat) b, (58 :: t).head? = some b → is_ascii_digit b = false := by
    intro t b hb
    injection hb with hb
    rw [← hb]
    decide
  have p1 := parse_two_digit h hh (58 :: (two_digit_bytes m ++ 58 :: two_digit_bytes sec))
    (hcolon _)
  have p2 := parse_two_digit m hm (58 :: two_digit_bytes sec) (hcolon _)
  have p3 := parse_two_digit sec hs [] (by intro b hb; cases hb)
  have p3' : parse_unsigned (two_digit_bytes sec) = some (sec, []) := by
    rw [← List.append_nil (two_digit_bytes sec)]
    exact p3
  unfold utils_time_string_to_seconds
  rw [p1]
  simp only [p2, p3']

/-- C9: time-string formatting round-trips with parsing below the display
cap: for seconds at most 359999 (whole hours at most 99) and a buffer of at
least 9 bytes, formatting then parsing returns the original value. -/
theorem time_string_round_trip (s bufsize : Nat) (hs : s ≤ 359999) (hb : 9 ≤ bufsize) :
    ∃ str, utils_seconds_to_time_string s bufsize = some str ∧
      utils_time_string_to_seconds str = s := by
  have hfmt : utils_seconds_to_time_string s bufsize
      = some (two_digit_bytes (s / 3600)
          ++ 58 :: (two_digit_bytes (s % 3600 / 60) ++ 58 :: two_digit_bytes (s % 60))) := by
    unfold utils_seconds_to_time_string
    rw [if_neg (by omega), if_neg (by omega)]
  refine ⟨_, hfmt, ?_⟩
  rw [parse_formatted_time (s / 3600) (s % 3600 / 60) (s % 60) (by omega) (by omega) (by omega)]
  omega

/-- Witness for C9 at 1 hour, 2 minutes, 5 seconds and at the display cap. -/
theorem time_string_round_trip_witness :
    (∃ str, utils_seconds_to_time_string 3725 9 = some str ∧
      utils_time_string_to_seconds str = 3725) ∧
    (∃ str, utils_seconds_to_time_string 359999 16 = some str ∧
      utils_time_string_to_seconds str = 359999) :=
  ⟨time_string_round_trip 3725 9 (by decide) (by decide),
   time_string_round_trip 359999 16 (by decide) (by decide)⟩

end CKOS

namespace CKOS

/-- An operation on the ring buffer: put a byte or get a byte. -/
inductive RingOp where
  | put (b : Nat)
  | get
deriving DecidableEq

/-- Observable outcome of one ring-buffer operation (the C functions' bool
result, with the byte a successful get returns). -/
inductive RingEv where
  | putOk
  | putFail
  | gotByte (b : Nat)
  | getFail
deriving DecidableEq

/-- One ring-buffer operation: a failing call leaves the buffer untouched,
exactly as the C functions return false without mutating. -/
def ringStep (rb : utils_ring_buffer_t) : RingOp → utils_ring_buffer_t × RingEv
  | RingOp.put b =>
    match utils_ring_buffer_put rb b with
    | some rb2 => (rb2, RingEv.putOk)
    | Option.none => (rb, RingEv.putFail)
  | RingOp.get =>
    match utils_ring_buffer_get rb with
    | some (x, rb2) => (rb2, RingEv.gotByte x)
    | Option.none => (rb, RingEv.getFail)

/-- Run a sequence of ring-buffer operations, collecting the events. -/
def ringRun : utils_ring_buffer_t → List RingOp → utils_ring_buffer_t × List RingEv
  | rb, [] => (rb, [])
  | rb, op :: ops =>
    ((ringRun (ringStep rb op).1 ops).1,
     (ringStep rb op).2 :: (ringRun (ringStep rb op).1 ops).2)

/-- One step of the reference bounded FIFO queue the claim describes: put
appends when there is room, get removes from the front. -/
def queueStep (size : Nat) (q : List Nat) : RingOp → List Nat × RingEv
  | RingOp.put b =>
    if q.length < size then (q ++ [b], RingEv.putOk) else (q, RingEv.putFail)
  | RingOp.get =>
    match q with
    | [] => ([], RingEv.getFail)
    | x :: rest => (rest, RingEv.gotByte x)

/-- Run of the reference bounded FIFO queue. -/
def queueRun (size : Nat) : List Nat → List RingOp → List Nat × List RingEv
  | q, [] => (q, [])
  | q, op :: ops =>
    ((queueRun size (queueStep size q op).1 ops).1,
     (queueStep size q op).2 :: (queueRun size (queueStep size q op).1 ops).2)

/-- The queue of bytes a ring buffer currently holds: count bytes starting
at head, wrapping modulo size. -/
def ringAbs (rb : utils_ring_buffer_t) : List Nat :=
  (List.range rb.count).map (fun i => rb.buffer.getD ((rb.head + i) % rb.size) 0)

/-- Structural invariant of every ring buffer reachable from init. -/
def ringInv (rb : utils_ring_buffer_t) : Prop :=
  rb.buffer.length = rb.size ∧ rb.head < rb.size ∧ rb.count ≤ rb.size ∧
    rb.tail = (rb.head + rb.count) % rb.size

/-- The abstract queue holds exactly count bytes. -/
theorem ringAbs_length (rb : utils_ring_buffer_t) : (ringAbs rb).length = rb.count := by
  simp [ringAbs]

/-- A successful put preserves the invariant and appends the byte to the
abstract queue. -/
theorem ring_put_ok (rb : utils_ring_buffer_t) (b : Nat) (hinv : ringInv rb)
    (hlt : rb.count < rb.size) :
    ∃ rb2, utils_ring_buffer_put rb b = some rb2 ∧ ringInv rb2 ∧
      ringAbs rb2 = ringAbs rb ++ [b] ∧ rb2.count = rb.count + 1 ∧ rb2.size = rb.size := by
  obtain ⟨hlen, hhead, hcount, htail⟩ := hinv
  have hszpos : 0 < rb.size := by omega
  have htaillt : rb.tail < rb.size := by
    rw [htail]
    exact Nat.mod_lt _ hszpos
  refine ⟨{ rb with
      buffer := rb.buffer.set rb.tail b
      tail := (rb.tail + 1) % rb.size
      count := rb.count + 1 }, ?_, ⟨?_, hhead, ?_, ?_⟩, ?_, rfl, rfl⟩
  · unfold utils_ring_buffer_put
    rw [if_neg (by omega)]
  · show (rb.buffer.set rb.tail b).length = rb.size
    rw [List.length_set]
    exact hlen
  · show rb.count + 1 ≤ rb.size
    omega
  · show (rb.tail + 1) % rb.size = (rb.head + (rb.count + 1)) % rb.size
    rw [htail, Nat.mod_add_mod, Nat.add_assoc]
  · unfold ringAbs
    show (List.range (rb.count + 1)).map
        (fun i => (rb.buffer.set rb.tail b).getD ((rb.head + i) % rb.size) 0)
      = (List.range rb.count).map (fun i => rb.buffer.getD ((rb.head + i) % rb.size) 0) ++ [b]
    rw [List.range_succ, List.map_append]
    congr 1
    · apply List.map_congr_left
      intro i hi
      rw [List.mem_range] at hi
      have hne : rb.tail ≠ (rb.head + i) % rb.size := by
        rw [htail]
        intro he
        have hmeq : rb.count % rb.size = i % rb.size :=
          Nat.ModEq.add_left_cancel' rb.head he
        rw [Nat.mod_eq_of_lt (by omega), Nat.mod_eq_of_lt (by omega)] at hmeq
        omega
      simp only [List.getD_eq_getElem?_getD]
      rw [List.getElem?_set_ne hne]
    · show [(rb.buffer.set rb.tail b).getD ((rb.head + rb.count) % rb.size) 0] = [b]
      rw [← htail]
      simp only [List.getD_eq_getElem?_getD]
      rw [List.getElem?_set_eq_of_lt b (by omega)]
      rfl

/-- A successful get preserves the invariant and removes the front of the
abstract queue, returning exactly that byte. -/
theorem ring_get_ok (rb : utils_ring_buffer_t) (hinv : ringInv rb) (hpos : 0 < rb.count) :
    ∃ x rb2, utils_ring_buffer_get rb = some (x, rb2) ∧ ringInv rb2 ∧
      ringAbs rb = x :: ringAbs rb2 ∧ rb2.count = rb.count - 1 ∧ rb2.size = rb.size := by
  obtain ⟨hlen, hhead, hcount, htail⟩ := hinv
  have hszpos : 0 < rb.size := by omega
  refine ⟨rb.buffer.getD rb.head 0,
    { rb with head := (rb.head + 1) % rb.size, count := rb.count - 1 }, ?_,
    ⟨hlen, Nat.mod_lt _ hszpos, ?_, ?_⟩, ?_, rfl, rfl⟩
  · unfold utils_ring_buffer_get
    rw [if_neg (by omega)]
  · show rb.count - 1 ≤ rb.size
    omega
  · show rb.tail = ((rb.head + 1) % rb.size + (rb.count - 1)) % rb.size
    rw [htail, Nat.mod_add_mod]
    congr 1
    omega
  · unfold ringAbs
    have hc : rb.count = (rb.count - 1) + 1 := by omega
    conv_lhs => rw [hc]
    rw [List.range_succ_eq_map, List.map_cons, List.map_map]
    congr 1
    · show rb.buffer.getD ((rb.head + 0) % rb.size) 0 = rb.buffer.getD rb.head 0
      rw [Nat.add_zero, Nat.mod_eq_of_lt hhead]
    · apply List.map_congr_left
      intro i hi
      show rb.buffer.getD ((rb.head + Nat.succ i) % rb.size) 0
          = rb.buffer.getD (((rb.head + 1) % rb.size + i) % rb.size) 0
      rw [Nat.mod_add_mod]
      congr 2
      omega

end CKOS

namespace CKOS

/-- A put succeeds exactly when the count is below the capacity. -/
theorem put_isSome_iff (rb : utils_ring_buffer_t) (b : Nat) :
    (utils_ring_buffer_put rb b).isSome = true ↔ rb.count < rb.size := by
  unfold utils_ring_buffer_put
  by_cases h : rb.size ≤ rb.count
  · rw [if_pos h]
    simp only [Option.isSome_none, Bool.false_eq_true, false_iff]
    omega
  · rw [if_neg h]
    simp only [Option.isSome_some, true_iff]
    omega

/-- A get succeeds exactly when the count is positive. -/
theorem get_isSome_iff (rb : utils_ring_buffer_t) :
    (utils_ring_buffer_get rb).isSome = true ↔ 0 < rb.count := by
  unfold utils_ring_buffer_get
  by_cases h : rb.count = 0
  · rw [if_pos h]
    simp only [Option.isSome_none, Bool.false_eq_true, false_iff]
    omega
  · rw [if_neg h]
    simp only [Option.isSome_some, true_iff]
    omega

/-- One ring-buffer operation simulates one bounded-FIFO-queue step: the
invariant is preserved, the abstraction relation is maintained, and the
observable outcome is identical. -/
theorem ring_step_sim (size : Nat) (rb : utils_ring_buffer_t) (q : List Nat) (op : RingOp)
    (hinv : ringInv rb) (habs : ringAbs rb = q) (hsz : rb.size = size) :
    ringInv (ringStep rb op).1 ∧ ringAbs (ringStep rb op).1 = (queueStep size q op).1 ∧
      (ringStep rb op).2 = (queueStep size q op).2 ∧ (ringStep rb op).1.size = size := by
  have hqlen : q.length = rb.count := by
    rw [← habs]
    exact ringAbs_length rb
  cases op with
  | put b =>
    by_cases hlt : rb.count < rb.size
    · obtain ⟨rb2, hput, hinv2, habs2, hcnt2, hsz2⟩ := ring_put_ok rb b hinv hlt
      have hr : ringStep rb (RingOp.put b) = (rb2, RingEv.putOk) := by
        show (match utils_ring_buffer_put rb b with
          | some r => (r, RingEv.putOk)
          | Option.none => (rb, RingEv.putFail)) = (rb2, RingEv.putOk)
        rw [hput]
      have hq : queueStep size q (RingOp.put b) = (q ++ [b], RingEv.putOk) := by
        show (if q.length < size then (q ++ [b], RingEv.putOk) else (q, RingEv.putFail))
          = (q ++ [b], RingEv.putOk)
        rw [if_pos (by omega)]
      rw [hr, hq]
      exact ⟨hinv2, by rw [habs2, habs], rfl, by rw [hsz2, hsz]⟩
    · have hput : utils_ring_buffer_put rb b = Option.none := by
        unfold utils_ring_buffer_put
        rw [if_pos (by omega)]
      have hr : ringStep rb (RingOp.put b) = (rb, RingEv.putFail) := by
        show (match utils_ring_buffer_put rb b with
          | some r => (r, RingEv.putOk)
          | Option.none => (rb, RingEv.putFail)) = (rb, RingEv.putFail)
        rw [hput]
      have hq : queueStep size q (RingOp.put b) = (q, RingEv.putFail) := by
        show (if q.length < size then (q ++ [b], RingEv.putOk) else (q, RingEv.putFail))
          = (q, RingEv.putFail)
        rw [if_neg (by omega)]
      rw [hr, hq]
      exact ⟨hinv, habs, rfl, hsz⟩
  | get =>
    by_cases hpos : 0 < rb.count
    · obtain ⟨x, rb2, hget, hinv2, habs2, hcnt2, hsz2⟩ := ring_get_ok rb hinv hpos
      have hr : ringStep rb RingOp.get = (rb2, RingEv.gotByte x) := by
        show (match utils_ring_buffer_get rb with
          | some (y, r) => (r, RingEv.gotByte y)
          | Option.none => (rb, RingEv.getFail)) = (rb2, RingEv.gotByte x)
        rw [hget]
      have hq0 : q = x :: ringAbs rb2 := by
        rw [← habs, habs2]
      have hq : queueStep size q RingOp.get = (ringAbs rb2, RingEv.gotByte x) := by
        rw [hq0]
        rfl
      rw [hr, hq]
      exact ⟨hinv2, rfl, rfl, by rw [hsz2, hsz]⟩
    · have hget : utils_ring_buffer_get rb = Option.none := by
        unfold utils_ring_buffer_get
        rw [if_pos (by omega)]
      have hr : ringStep rb RingOp.get = (rb, RingEv.getFail) := by
        show (match utils_ring_buffer_get rb with
          | some (y, r) => (r, RingEv.gotByte y)
          | Option.none => (rb, RingEv.getFail)) = (rb, RingEv.getFail)
        rw [hget]
      have hq0 : q = [] := List.length_eq_zero.mp (by omega)
      have hq : queueStep size q RingOp.get = ([], RingEv.getFail) := by
        rw [hq0]
        rfl
      rw [hr, hq]
      exact ⟨hinv, by rw [habs, hq0], rfl, hsz⟩

/-- Running any sequence of ring-buffer operations simulates the bounded
FIFO queue: same events, same contents, invariant maintained. -/
theorem ring_run_sim (size : Nat) (ops : List RingOp) :
    ∀ rb q, ringInv rb → ringAbs rb = q → rb.size = size →
      ringInv (ringRun rb ops).1 ∧ ringAbs (ringRun rb ops).1 = (queueRun size q ops).1 ∧
        (ringRun rb ops).2 = (queueRun size q ops).2 ∧ (ringRun rb ops).1.size = size := by
  induction ops with
  | nil =>
    intro rb q hinv habs hsz
    exact ⟨hinv, habs, rfl, hsz⟩
  | cons op rest ih =>
    intro rb q hinv habs hsz
    obtain ⟨h1, h2, h3, h4⟩ := ring_step_sim size rb q op hinv habs hsz
    obtain ⟨g1, g2, g3, g4⟩ := ih (ringStep rb op).1 (queueStep size q op).1 h1 h2 h4
    refine ⟨g1, g2, ?_, g4⟩
    show (ringStep rb op).2 :: (ringRun (ringStep rb op).1 rest).2
        = (queueStep size q op).2 :: (queueRun size (queueStep size q op).1 rest).2
    rw [h3, g3]

/-- The ring buffer a successful init returns. -/
def initialRing (backing : List Nat) (size : Nat) : utils_ring_buffer_t :=
  { buffer := backing, size := size, head := 0, tail := 0, count := 0 }

/-- C10: from a freshly initialized buffer of any capacity of at least 1,
every sequence of put/get operations behaves exactly as the bounded FIFO
queue of that capacity: the event traces coincide (so the bytes returned by
successful gets are the bytes of successful puts, in order), the held bytes
match the queue, the count equals the queue length and never exceeds the
capacity, and at every reachable state the next put succeeds exactly when
the count is below the capacity and the next get exactly when the count is
positive. -/
theorem ring_buffer_fifo_spec (backing : List Nat) (size : Nat) (ops : List RingOp)
    (hsize : 1 ≤ size) (hlen : backing.length = size) :
    utils_ring_buffer_init backing size = some (initialRing backing size) ∧
      ((ringRun (initialRing backing size) ops).2 = (queueRun size [] ops).2 ∧
       ringAbs (ringRun (initialRing backing size) ops).1 = (queueRun size [] ops).1 ∧
       (ringRun (initialRing backing size) ops).1.count = (queueRun size [] ops).1.length ∧
       (ringRun (initialRing backing size) ops).1.count ≤ size ∧
       (∀ b, (utils_ring_buffer_put (ringRun (initialRing backing size) ops).1 b).isSome = true ↔
         (ringRun (initialRing backing size) ops).1.count < size) ∧
       ((utils_ring_buffer_get (ringRun (initialRing backing size) ops).1).isSome = true ↔
         0 < (ringRun (initialRing backing size) ops).1.count)) := by
  have hinit : utils_ring_buffer_init backing size = some (initialRing backing size) := by
    unfold utils_ring_buffer_init initialRing
    rw [if_neg]
    simp only [Bool.or_eq_true, decide_eq_true_eq, not_or]
    omega
  have hinv0 : ringInv (initialRing backing size) := by
    refine ⟨hlen, ?_, ?_, ?_⟩
    · show 0 < size
      omega
    · show 0 ≤ size
      omega
    · show 0 = (0 + 0) % size
      simp
  have habs0 : ringAbs (initialRing backing size) = [] := by
    simp [ringAbs, initialRing]
  obtain ⟨g1, g2, g3, g4⟩ := ring_run_sim size ops (initialRing backing size) [] hinv0 habs0 rfl
  refine ⟨hinit, g3, g2, ?_, ?_, ?_, ?_⟩
  · rw [← g2]
    exact (ringAbs_length _).symm
  · have hc := g1.2.2.1
    omega
  · intro b
    rw [put_isSome_iff, g4]
  · rw [get_isSome_iff]

/-- Operation sequence used by the C10 witness: three puts into a buffer of
capacity 2 (the third must fail) followed by three gets (the third must
fail), returning 7 then 8 in FIFO order. -/
def demoOps : List RingOp :=
  [RingOp.put 7, RingOp.put 8, RingOp.put 9, RingOp.get, RingOp.get, RingOp.get]

/-- Witness for C10 on a concrete capacity-2 buffer and operation list. -/
theorem ring_buffer_fifo_spec_witness :
    utils_ring_buffer_init [0, 0] 2 = some (initialRing [0, 0] 2) ∧
      ((ringRun (initialRing [0, 0] 2) demoOps).2 = (queueRun 2 [] demoOps).2 ∧
       ringAbs (ringRun (initialRing [0, 0] 2) demoOps).1 = (queueRun 2 [] demoOps).1 ∧
       (ringRun (initialRing [0, 0] 2) demoOps).1.count
         = (queueRun 2 [] demoOps).1.length ∧
       (ringRun (initialRing [0, 0] 2) demoOps).1.count ≤ 2 ∧
       (∀ b, (utils_ring_buffer_put (ringRun (initialRing [0, 0] 2) demoOps).1 b).isSome
           = true ↔ (ringRun (initialRing [0, 0] 2) demoOps).1.count < 2) ∧
       ((utils_ring_buffer_get (ringRun (initialRing [0, 0] 2) demoOps).1).isSome = true ↔
         0 < (ringRun (initialRing [0, 0] 2) demoOps).1.count)) :=
  ring_buffer_fifo_spec [0, 0] 2 demoOps (by decide) (by decide)

end CKOS
